import Mathlib

/-!
Verification of the model-option catalog core of `crush`:
the recency validation-and-pruning algorithm, the provider/model
union-and-dedup algorithm of the option-list builder, the split-write
configuration reconciler, and the chat page's default key map.

The repository ships the test suite (`list_recent_test.go`) and the chat
key map (`keys.go`); the catalog core itself is modelled from the spec,
faithful to its words and consistent with the behavior the tests pin down.
-/

namespace Crush

/-- Modelled from the spec: `ModelDescriptor` —
`{id, displayName, defaultMaxTokens}` describing one model of a provider
(the builder and validator only inspect `id`). -/
structure ModelDescriptor where
  id : String
  displayName : String
  defaultMaxTokens : Nat
deriving DecidableEq, Repr

/-- Modelled from the spec: `ProviderDescriptor` —
a provider's ID, display name, and ordered model sequence. -/
structure ProviderDescriptor where
  id : String
  displayName : String
  models : List ModelDescriptor
deriving DecidableEq, Repr

/-- Modelled from the spec: `RecentEntry` — one persisted
`{provider, model}` record of a previously selected pair. -/
structure RecentEntry where
  provider : String
  model : String
deriving DecidableEq, Repr

/-- Modelled from the spec: `ModelOption` — one provider descriptor
joined with one of its model descriptors. -/
structure ModelOption where
  provider : ProviderDescriptor
  model : ModelDescriptor
deriving DecidableEq, Repr

/-- A display item surfaced to the rendering collaborator: a string
identity key (`modelKey`, prefixed with `recent::` for recent items),
the recent tag, and the underlying option. -/
structure DisplayItem where
  id : String
  recent : Bool
  option : ModelOption
deriving DecidableEq, Repr

/-- One display group: a label and its ordered items. -/
structure DisplayGroup where
  label : String
  items : List DisplayItem
deriving DecidableEq, Repr

/-- The identity key of a provider/model pair (mirrors `modelKey` in the
model list component, pinned by `TestModelKey_EmptyInputs`): empty-string
sentinel when either component is empty, else `providerID:modelID`. -/
def modelKey (providerID modelID : String) : String :=
  if providerID == "" || modelID == "" then ""
  else providerID ++ ":" ++ modelID

/-- Modelled from the spec: a `RecentEntry` resolves in a catalog when
some catalog provider carries its provider ID and that provider's model
set carries its model ID. -/
def resolves (catalog : List ProviderDescriptor) (e : RecentEntry) : Bool :=
  catalog.any fun p =>
    p.id == e.provider && p.models.any fun m => m.id == e.model

/-- Modelled from the spec: the `RecencyValidator` — walks the recorded
recent entries in order and keeps exactly those that resolve in the
current catalog. -/
def validateRecents (catalog : List ProviderDescriptor)
    (recents : List RecentEntry) : List RecentEntry :=
  recents.foldl (fun acc e => if resolves catalog e then acc ++ [e] else acc) []

/-- Modelled from the spec: union of two model sequences keyed by model
ID — keeps `xs`, then appends each model of `ys` whose ID is not yet
present. -/
def unionModels (xs ys : List ModelDescriptor) : List ModelDescriptor :=
  ys.foldl (fun acc m => if acc.any (fun x => x.id == m.id) then acc else acc ++ [m]) xs

/-- Modelled from the spec: dedicated form of `unionModels` that dedups a
single model sequence by ID. -/
def dedupModels (ms : List ModelDescriptor) : List ModelDescriptor :=
  unionModels [] ms

/-- Modelled from the spec: fold step of the builder's provider merge —
a source provider claiming an ID already in the accumulator is unioned
into that logical provider's model set; a new ID starts a new group. -/
def addProvider (acc : List ProviderDescriptor) (p : ProviderDescriptor) :
    List ProviderDescriptor :=
  if acc.any (fun q => q.id == p.id) then
    acc.map fun q =>
      if q.id == p.id then { q with models := unionModels q.models p.models } else q
  else
    acc ++ [{ p with models := dedupModels p.models }]

/-- Modelled from the spec: the builder's provider merge — catalog
providers first, then snapshot-configured providers, folded into one
logical provider per distinct ID with model sets unioned by model key. -/
def mergeProviderLists (catalog configured : List ProviderDescriptor) :
    List ProviderDescriptor :=
  (catalog ++ configured).foldl addProvider []

/-- Modelled from the spec: the items of one provider group — one option
per model, keyed by `modelKey`; unkeyable pairs (empty sentinel key) are
never surfaced. -/
def providerItems (p : ProviderDescriptor) : List DisplayItem :=
  p.models.filterMap fun m =>
    if modelKey p.id m.id == "" then none
    else some ⟨modelKey p.id m.id, false, ⟨p, m⟩⟩

/-- Modelled from the spec: one display group per merged provider. -/
def providerGroup (p : ProviderDescriptor) : DisplayGroup :=
  ⟨p.displayName, providerItems p⟩

/-- Modelled from the spec: the recent group — one option per validated
recent entry, in validator output order, looked up among the merged
providers and tagged with the distinguishing `recent::` identity
prefix. -/
def buildRecentGroup (providers : List ProviderDescriptor)
    (validated : List RecentEntry) : List DisplayItem :=
  validated.filterMap fun e =>
    if modelKey e.provider e.model == "" then none
    else
      match providers.find? (fun p => p.id == e.provider) with
      | none => none
      | some p =>
        match p.models.find? (fun m => m.id == e.model) with
        | none => none
        | some m => some ⟨"recent::" ++ modelKey e.provider e.model, true, ⟨p, m⟩⟩

/-- Label of the recent section. -/
def recentGroupLabel : String := "Recently used"

/-- Modelled from the spec: the `OptionListBuilder` — the recent group
(omitted when empty) followed by one group per merged provider. -/
def buildGroups (catalog configured : List ProviderDescriptor)
    (validated : List RecentEntry) : List DisplayGroup :=
  (if (buildRecentGroup (mergeProviderLists catalog configured) validated).isEmpty
    then []
    else [⟨recentGroupLabel,
      buildRecentGroup (mergeProviderLists catalog configured) validated⟩])
  ++ (mergeProviderLists catalog configured).map providerGroup

/-- Identity keys of all provider-group items of a provider sequence. -/
def itemsKeys : List ProviderDescriptor → List String
  | [] => []
  | p :: ps => (providerItems p).map DisplayItem.id ++ itemsKeys ps

/-- All items of a group sequence, in display order. -/
def groupsItems : List DisplayGroup → List DisplayItem
  | [] => []
  | g :: gs => g.items ++ groupsItems gs

/-- Identity keys of the items without the recent tag. -/
def nonRecentIds (gs : List DisplayGroup) : List String :=
  ((groupsItems gs).filter fun it => !it.recent).map DisplayItem.id

/-- Provider IDs of a provider sequence. -/
def idsOf (ps : List ProviderDescriptor) : List String :=
  ps.map ProviderDescriptor.id

/-- Model IDs of a model sequence. -/
def modelIds (ms : List ModelDescriptor) : List String :=
  ms.map ModelDescriptor.id

/-- A provider sequence whose IDs are free of the `:` separator (the
shape real provider IDs take; makes `modelKey` injective on pairs). -/
def SeparatorFreeIds (ps : List ProviderDescriptor) : Prop :=
  ∀ p ∈ ps, (':' : Char) ∉ p.id.data

/-- The structural invariant of a merged provider sequence: provider IDs
are pairwise distinct and each group's model IDs are pairwise
distinct. -/
def GoodProviders (ps : List ProviderDescriptor) : Prop :=
  (idsOf ps).Nodup ∧ ∀ p ∈ ps, (modelIds p.models).Nodup

/-- The surfaced identity keys of one provider group's model sequence. -/
def keysOfModels (pid : String) (ms : List ModelDescriptor) : List String :=
  ms.filterMap fun m =>
    if modelKey pid m.id == "" then none else some (modelKey pid m.id)

/-- Modelled from the spec: the JSON-compatible value shape of the
persisted `ConfigDocument` — this core reads it opaquely except for the
`models` and `recent_models` keys. -/
inductive JsonVal where
  | str : String → JsonVal
  | num : Int → JsonVal
  | bool : Bool → JsonVal
  | null : JsonVal
  | arr : List JsonVal → JsonVal
  | obj : List (String × JsonVal) → JsonVal

/-- Key lookup in a JSON object's field list (first match). -/
def getKey (fields : List (String × JsonVal)) (k : String) : Option JsonVal :=
  (fields.find? fun kv => kv.1 == k).map fun kv => kv.2

/-- Replace the value under `k` in place, or append the pair when the
key is absent — a structural update that keeps every other field and the
field order intact. -/
def setKey : List (String × JsonVal) → String → JsonVal → List (String × JsonVal)
  | [], k, v => [(k, v)]
  | (k', v') :: rest, k, v =>
    if k' == k then (k, v) :: rest else (k', v') :: setKey rest k v

/-- Modelled from the spec: the persisted shape of one recent entry,
`{"provider": id, "model": id}`. -/
def recentEntryToJson (e : RecentEntry) : JsonVal :=
  .obj [("model", .str e.model), ("provider", .str e.provider)]

/-- Modelled from the spec: the error taxonomy of a reconciliation pass
that this core can hit before persisting. -/
inductive ReconcileError where
  | malformedSnapshot
deriving DecidableEq, Repr

/-- Modelled from the spec: whether the source document's relevant keys
are in the expected shape — the document is an object and its
`recent_models` key, when present, is an object. -/
def relevantKeysWellFormed : JsonVal → Bool
  | .obj fields =>
    match getKey fields "recent_models" with
    | some (.obj _) => true
    | some _ => false
    | none => true
  | _ => false

/-- Modelled from the spec: the `ConfigReconciler`'s merge —
`reconcile(sourceDocument, sizeClass, validatedRecents)` produces a full
structural copy of the source with only `recent_models[sizeClass]`
replaced by the validated list; a malformed source fails the pass. -/
def reconcileDoc (source : JsonVal) (sizeClass : String)
    (validated : List RecentEntry) : Except ReconcileError JsonVal :=
  match source with
  | .obj fields =>
    match getKey fields "recent_models" with
    | some (.obj rmFields) =>
      .ok (.obj (setKey fields "recent_models"
        (.obj (setKey rmFields sizeClass (.arr (validated.map recentEntryToJson))))))
    | some _ => .error .malformedSnapshot
    | none =>
      .ok (.obj (setKey fields "recent_models"
        (.obj [(sizeClass, .arr (validated.map recentEntryToJson))])))
  | _ => .error .malformedSnapshot

/-- The two storage locations this core touches: the user-edited source
document and the derived document in the separate data directory
(`none` when no derived document was ever persisted). -/
structure Store where
  sourceDoc : JsonVal
  derivedDoc : Option JsonVal

/-- Modelled from the spec: one reconciliation pass over the store —
merge the validated recents into a copy of the source and persist it to
the derived location; on failure, persist nothing and leave the store
intact. The source location is never a write target. -/
def runReconcilePass (st : Store) (sizeClass : String)
    (validated : List RecentEntry) : Store × Option ReconcileError :=
  match reconcileDoc st.sourceDoc sizeClass validated with
  | .ok derived => ({ st with derivedDoc := some derived }, none)
  | .error e => (st, some e)

/-- Sample model `m1` mirroring the test fixtures. -/
def sampleM1 : ModelDescriptor := ⟨"m1", "Model One", 100⟩

/-- Sample model `m2` mirroring the test fixtures. -/
def sampleM2 : ModelDescriptor := ⟨"m2", "Model Two", 100⟩

/-- Sample model `m3` mirroring the test fixtures. -/
def sampleM3 : ModelDescriptor := ⟨"m3", "Model Three", 100⟩

/-- Sample catalog provider `p1` with models `m1, m2`. -/
def sampleP1 : ProviderDescriptor := ⟨"p1", "Provider One", [sampleM1, sampleM2]⟩

/-- A second source list's description of provider `p1`, with the
overlapping model set `m2, m3`. -/
def sampleP1B : ProviderDescriptor := ⟨"p1", "Provider One B", [sampleM2, sampleM3]⟩

/-- Sample recent entries: one valid pair and one unknown provider. -/
def sampleRecents : List RecentEntry := [⟨"p1", "m2"⟩, ⟨"unknown-provider", "x"⟩]

/-- Sample source document fields mirroring the seeded `crush.json` of
the tests. -/
def sampleFields : List (String × JsonVal) :=
  [("options", .obj [("disable_provider_auto_update", .bool true)]),
   ("models", .obj [("large", .obj [("model", .str "m1"), ("provider", .str "p1")])]),
   ("recent_models", .obj [("large", .arr [recentEntryToJson ⟨"p1", "m2"⟩,
      recentEntryToJson ⟨"unknown-provider", "x"⟩])])]

/-- The `recent_models` object of `sampleFields`. -/
def sampleRm : List (String × JsonVal) :=
  [("large", .arr [recentEntryToJson ⟨"p1", "m2"⟩,
    recentEntryToJson ⟨"unknown-provider", "x"⟩])]

/-- A sample store holding the source document with no derived document
persisted yet. -/
def sampleStore : Store := ⟨.obj sampleFields, none⟩

/-- A store whose source document has a malformed `recent_models` key
and a previously persisted derived document. -/
def badStore : Store :=
  ⟨.obj [("recent_models", .str "oops")], some (.obj [("prior", .bool true)])⟩

/-- The derived document produced from `sampleFields` for size class
`large` and the validated list `[(p1, m2)]`. -/
def sampleDerived : JsonVal :=
  .obj (setKey sampleFields "recent_models"
    (.obj (setKey sampleRm "large"
      (.arr (([⟨"p1", "m2"⟩] : List RecentEntry).map recentEntryToJson)))))

/-- The recent-group display item produced for the pair `(p1, m2)`. -/
def sampleRecentItem : DisplayItem :=
  ⟨"recent::p1:m2", true, ⟨sampleP1, sampleM2⟩⟩

mutual

/-- Deterministic byte serialization of a document value: equal values
persist as byte-identical documents. -/
def JsonVal.render : JsonVal → String
  | .str s => "\x22" ++ s ++ "\x22"
  | .num n => toString n
  | .bool b => if b then "true" else "false"
  | .null => "null"
  | .arr xs => "[" ++ renderArr xs ++ "]"
  | .obj fs => "\x7b" ++ renderObj fs ++ "\x7d"

/-- Serialization of an array body. -/
def renderArr : List JsonVal → String
  | [] => ""
  | [x] => x.render
  | x :: y :: xs => x.render ++ "," ++ renderArr (y :: xs)

/-- Serialization of an object body. -/
def renderObj : List (String × JsonVal) → String
  | [] => ""
  | [(k, v)] => "\x22" ++ k ++ "\x22:" ++ v.render
  | (k, v) :: f :: fs => "\x22" ++ k ++ "\x22:" ++ v.render ++ "," ++ renderObj (f :: fs)

end

end Crush

namespace Chat

/-- A key binding as built by `key.NewBinding` in `keys.go`: the raw key
sequences it listens on, plus its help entry. -/
structure Binding where
  keys : List String
  helpKey : String
  helpDesc : String
deriving DecidableEq, Repr

/-- The chat page's key map (`KeyMap` in `keys.go`). -/
structure KeyMap where
  NewSession : Binding
  AddAttachment : Binding
  Cancel : Binding
  Tab : Binding
  Details : Binding
  TogglePills : Binding
  PillLeft : Binding
  PillRight : Binding
deriving DecidableEq, Repr

/-- `DefaultKeyMap` from `src/internal/tui/page/chat/keys.go`. -/
def DefaultKeyMap : KeyMap where
  NewSession := ⟨["ctrl+n"], "ctrl+n", "new session"⟩
  AddAttachment := ⟨["ctrl+t"], "ctrl+t", "add attachment"⟩
  Cancel := ⟨["esc", "alt+esc"], "esc", "cancel"⟩
  Tab := ⟨["tab"], "tab", "change focus"⟩
  Details := ⟨["ctrl+d"], "ctrl+d", "toggle details"⟩
  TogglePills := ⟨["ctrl+space"], "ctrl+space", "toggle tasks"⟩
  PillLeft := ⟨["left", "ctrl+b"], "←/→ or ctrl+b/f", "switch section"⟩
  PillRight := ⟨["right", "ctrl+f"], "←/→ or ctrl+b/f", "switch section"⟩

/-- The eight bindings of a chat key map, in declaration order. -/
def bindingsOf (km : KeyMap) : List Binding :=
  [km.NewSession, km.AddAttachment, km.Cancel, km.Tab,
   km.Details, km.TogglePills, km.PillLeft, km.PillRight]

end Chat

namespace Crush

theorem validateRecents_go (catalog : List ProviderDescriptor) :
    ∀ (recents : List RecentEntry) (acc : List RecentEntry),
      recents.foldl (fun acc e => if resolves catalog e then acc ++ [e] else acc) acc
        = acc ++ recents.filter (fun e => resolves catalog e) := by
  intro recents
  induction recents with
  | nil => intro acc; simp
  | cons e rest ih =>
    intro acc
    by_cases h : resolves catalog e
    · simp [List.foldl_cons, h, ih]
    · simp [List.foldl_cons, h, ih]

theorem validateRecents_eq_filter (catalog : List ProviderDescriptor)
    (recents : List RecentEntry) :
    validateRecents catalog recents
      = recents.filter (fun e => resolves catalog e) := by
  simpa using validateRecents_go catalog recents []

theorem modelIds_append (xs ys : List ModelDescriptor) :
    modelIds (xs ++ ys) = modelIds xs ++ modelIds ys := by
  simp [modelIds]

theorem mem_modelIds {a : String} {ms : List ModelDescriptor} :
    a ∈ modelIds ms ↔ ∃ m ∈ ms, m.id = a := by
  simp [modelIds]

theorem unionModels_nil (xs : List ModelDescriptor) : unionModels xs [] = xs := rfl

theorem unionModels_cons (xs : List ModelDescriptor) (y : ModelDescriptor)
    (ys : List ModelDescriptor) :
    unionModels xs (y :: ys)
      = unionModels (if xs.any (fun x => x.id == y.id) then xs else xs ++ [y]) ys := rfl

theorem unionModels_nodup :
    ∀ (ys xs : List ModelDescriptor), (modelIds xs).Nodup →
      (modelIds (unionModels xs ys)).Nodup := by
  intro ys
  induction ys with
  | nil => intro xs h; exact h
  | cons y ys ih =>
    intro xs h
    rw [unionModels_cons]
    by_cases hy : xs.any (fun x => x.id == y.id)
    · simpa [hy] using ih xs h
    · have hnot : y.id ∉ modelIds xs := by
        intro hmem
        rcases mem_modelIds.mp hmem with ⟨x, hx, hxid⟩
        exact hy (List.any_eq_true.mpr ⟨x, hx, by simp [hxid]⟩)
      have : (modelIds (xs ++ [y])).Nodup := by
        rw [modelIds_append, List.nodup_append]
        refine ⟨h, by simp [modelIds], ?_⟩
        intro a ha hb
        rw [show modelIds [y] = [y.id] from rfl, List.mem_singleton] at hb
        exact hnot (hb ▸ ha)
      simpa [hy] using ih (xs ++ [y]) this

theorem mem_unionModels_ids :
    ∀ (ys xs : List ModelDescriptor) (a : String),
      a ∈ modelIds (unionModels xs ys) ↔ a ∈ modelIds xs ∨ a ∈ modelIds ys := by
  intro ys
  induction ys with
  | nil => intro xs a; simp [unionModels_nil, modelIds]
  | cons y ys ih =>
    intro xs a
    rw [unionModels_cons]
    have hmem : a ∈ modelIds (y :: ys) ↔ a = y.id ∨ a ∈ modelIds ys := by
      rw [show modelIds (y :: ys) = y.id :: modelIds ys from rfl, List.mem_cons]
    by_cases hy : xs.any (fun x => x.id == y.id)
    · rw [if_pos hy, ih, hmem]
      have hyx : y.id ∈ modelIds xs := by
        rcases List.any_eq_true.mp hy with ⟨x, hx, hxid⟩
        exact mem_modelIds.mpr ⟨x, hx, by simpa using hxid⟩
      constructor
      · rintro (h | h)
        · exact Or.inl h
        · exact Or.inr (Or.inr h)
      · rintro (h | h | h)
        · exact Or.inl h
        · exact Or.inl (h ▸ hyx)
        · exact Or.inr h
    · rw [if_neg hy, ih, hmem, modelIds_append,
        show modelIds [y] = [y.id] from rfl, List.mem_append, List.mem_singleton]
      tauto

theorem dedupModels_nodup (ms : List ModelDescriptor) :
    (modelIds (dedupModels ms)).Nodup :=
  unionModels_nodup ms [] (by simp [modelIds])

theorem mem_dedupModels_ids (ms : List ModelDescriptor) (a : String) :
    a ∈ modelIds (dedupModels ms) ↔ a ∈ modelIds ms := by
  unfold dedupModels
  rw [mem_unionModels_ids]
  simp [modelIds]

theorem idsOf_append (a b : List ProviderDescriptor) :
    idsOf (a ++ b) = idsOf a ++ idsOf b := by
  simp [idsOf]

theorem mem_idsOf {a : String} {ps : List ProviderDescriptor} :
    a ∈ idsOf ps ↔ ∃ p ∈ ps, p.id = a := by
  simp [idsOf]

theorem idsOf_addProvider (acc : List ProviderDescriptor) (p : ProviderDescriptor) :
    idsOf (addProvider acc p)
      = if acc.any (fun q => q.id == p.id) then idsOf acc else idsOf acc ++ [p.id] := by
  unfold addProvider
  by_cases h : acc.any (fun q => q.id == p.id)
  · rw [if_pos h, if_pos h]
    unfold idsOf
    rw [List.map_map]
    apply List.map_congr_left
    intro q _
    by_cases hq : q.id = p.id <;> simp [hq]
  · rw [if_neg h, if_neg h, idsOf_append]
    rfl

theorem addProvider_good (acc : List ProviderDescriptor) (p : ProviderDescriptor)
    (h : GoodProviders acc) : GoodProviders (addProvider acc p) := by
  obtain ⟨hids, hmodels⟩ := h
  constructor
  · rw [idsOf_addProvider]
    by_cases hy : acc.any (fun q => q.id == p.id)
    · simpa [hy] using hids
    · rw [if_neg hy]
      have hnot : p.id ∉ idsOf acc := by
        intro hmem
        rcases mem_idsOf.mp hmem with ⟨q, hq, hqid⟩
        exact hy (List.any_eq_true.mpr ⟨q, hq, by simp [hqid]⟩)
      simp [List.nodup_append, hids, hnot]
  · intro q hq
    unfold addProvider at hq
    by_cases hy : acc.any (fun q => q.id == p.id)
    · rw [if_pos hy] at hq
      rcases List.mem_map.mp hq with ⟨q', hq', rfl⟩
      by_cases hid : q'.id == p.id
      · simpa [hid] using unionModels_nodup p.models q'.models (hmodels q' hq')
      · simpa [hid] using hmodels q' hq'
    · rw [if_neg hy] at hq
      rcases List.mem_append.mp hq with hq' | hq'
      · exact hmodels q hq'
      · have : q = { p with models := dedupModels p.models } := by simpa using hq'
        rw [this]
        exact dedupModels_nodup p.models

theorem foldl_addProvider_good (l : List ProviderDescriptor) :
    ∀ acc, GoodProviders acc → GoodProviders (l.foldl addProvider acc) := by
  induction l with
  | nil => intro acc h; exact h
  | cons p l ih =>
    intro acc h
    exact ih (addProvider acc p) (addProvider_good acc p h)

theorem mergeProviderLists_good (cat conf : List ProviderDescriptor) :
    GoodProviders (mergeProviderLists cat conf) :=
  foldl_addProvider_good (cat ++ conf) [] ⟨by simp [idsOf], by simp⟩

theorem idsOf_foldl_addProvider_sub (l : List ProviderDescriptor) :
    ∀ acc s, s ∈ idsOf (l.foldl addProvider acc) → s ∈ idsOf acc ∨ s ∈ idsOf l := by
  induction l with
  | nil => intro acc s h; exact Or.inl h
  | cons p l ih =>
    intro acc s h
    rcases ih (addProvider acc p) s h with h' | h'
    · rw [idsOf_addProvider] at h'
      by_cases hy : acc.any (fun q => q.id == p.id)
      · exact Or.inl (by simpa [hy] using h')
      · rw [if_neg hy, List.mem_append, List.mem_singleton] at h'
        rcases h' with h'' | h''
        · exact Or.inl h''
        · refine Or.inr ?_
          rw [show idsOf (p :: l) = p.id :: idsOf l from rfl]
          exact List.mem_cons.mpr (Or.inl h'')
    · refine Or.inr ?_
      rw [show idsOf (p :: l) = p.id :: idsOf l from rfl]
      exact List.mem_cons.mpr (Or.inr h')

theorem mergeProviderLists_ids_sub (cat conf : List ProviderDescriptor) (s : String)
    (h : s ∈ idsOf (mergeProviderLists cat conf)) :
    s ∈ idsOf cat ∨ s ∈ idsOf conf := by
  rcases idsOf_foldl_addProvider_sub (cat ++ conf) [] s h with h' | h'
  · simp [idsOf] at h'
  · rw [idsOf_append] at h'
    exact List.mem_append.mp h'

theorem modelKey_empty_left (m : String) : modelKey "" m = "" := by
  simp [modelKey]

theorem modelKey_empty_right (p : String) : modelKey p "" = "" := by
  simp [modelKey]

theorem modelKey_of_ne (p m : String) (hp : p ≠ "") (hm : m ≠ "") :
    modelKey p m = p ++ ":" ++ m := by
  simp [modelKey, hp, hm]

theorem ne_of_modelKey_ne (p m : String) (h : modelKey p m ≠ "") :
    p ≠ "" ∧ m ≠ "" := by
  by_cases hp : p = ""
  · exact absurd (by simp [modelKey, hp]) h
  · by_cases hm : m = ""
    · exact absurd (by simp [modelKey, hm]) h
    · exact ⟨hp, hm⟩

theorem modelKey_data (p m : String) (hp : p ≠ "") (hm : m ≠ "") :
    (modelKey p m).data = p.data ++ ':' :: m.data := by
  rw [modelKey_of_ne p m hp hm, String.data_append, String.data_append]
  simp

theorem sep_append_inj :
    ∀ (a b x y : List Char), (':' : Char) ∉ a → (':' : Char) ∉ b →
      a ++ ':' :: x = b ++ ':' :: y → a = b ∧ x = y := by
  intro a
  induction a with
  | nil =>
    intro b x y _ hb h
    cases b with
    | nil => exact ⟨rfl, by simpa using h⟩
    | cons c b' =>
      exfalso
      have hc : (':' : Char) = c := by simpa using congrArg (fun l => l.head?) h
      exact hb (hc ▸ List.mem_cons_self c b')
  | cons c a' ih =>
    intro b x y ha hb h
    cases b with
    | nil =>
      exfalso
      have hc : c = ':' := by simpa using congrArg (fun l => l.head?) h
      exact ha (hc ▸ List.mem_cons_self c a')
    | cons d b' =>
      rw [List.cons_append, List.cons_append, List.cons.injEq] at h
      obtain ⟨rfl, h2⟩ := h
      have ha' : (':' : Char) ∉ a' := fun hm => ha (List.mem_cons_of_mem _ hm)
      have hb' : (':' : Char) ∉ b' := fun hm => hb (List.mem_cons_of_mem _ hm)
      obtain ⟨he, hx⟩ := ih b' x y ha' hb' h2
      exact ⟨by rw [he], hx⟩

theorem modelKey_inj_sepFree (p1 m1 p2 m2 : String)
    (h1 : (':' : Char) ∉ p1.data) (h2 : (':' : Char) ∉ p2.data)
    (hk1 : modelKey p1 m1 ≠ "") (hk2 : modelKey p2 m2 ≠ "")
    (h : modelKey p1 m1 = modelKey p2 m2) : p1 = p2 ∧ m1 = m2 := by
  obtain ⟨hp1, hm1⟩ := ne_of_modelKey_ne _ _ hk1
  obtain ⟨hp2, hm2⟩ := ne_of_modelKey_ne _ _ hk2
  have hd := congrArg String.data h
  rw [modelKey_data _ _ hp1 hm1, modelKey_data _ _ hp2 hm2] at hd
  obtain ⟨ha, hb⟩ := sep_append_inj p1.data p2.data m1.data m2.data h1 h2 hd
  exact ⟨String.ext ha, String.ext hb⟩

theorem modelKey_inj_right (p m1 m2 : String)
    (hk1 : modelKey p m1 ≠ "") (hk2 : modelKey p m2 ≠ "")
    (h : modelKey p m1 = modelKey p m2) : m1 = m2 := by
  obtain ⟨hp, hm1⟩ := ne_of_modelKey_ne _ _ hk1
  obtain ⟨_, hm2⟩ := ne_of_modelKey_ne _ _ hk2
  have hd := congrArg String.data h
  rw [modelKey_data _ _ hp hm1, modelKey_data _ _ hp hm2] at hd
  exact String.ext (by simpa using List.append_cancel_left hd)

theorem providerItems_ids_go (p : ProviderDescriptor) :
    ∀ ms : List ModelDescriptor,
      ((ms.filterMap fun m =>
          if modelKey p.id m.id == "" then none
          else some (⟨modelKey p.id m.id, false, ⟨p, m⟩⟩ : DisplayItem)).map
        DisplayItem.id) = keysOfModels p.id ms := by
  intro ms
  induction ms with
  | nil => simp [keysOfModels]
  | cons m ms ih =>
    by_cases hc : modelKey p.id m.id = ""
    · simpa [keysOfModels, List.filterMap_cons, hc] using ih
    · simpa [keysOfModels, List.filterMap_cons, hc] using ih

theorem providerItems_ids (p : ProviderDescriptor) :
    (providerItems p).map DisplayItem.id = keysOfModels p.id p.models :=
  providerItems_ids_go p p.models

theorem mem_keysOfModels {a : String} {pid : String} {ms : List ModelDescriptor} :
    a ∈ keysOfModels pid ms
      ↔ ∃ m ∈ ms, modelKey pid m.id ≠ "" ∧ a = modelKey pid m.id := by
  rw [keysOfModels, List.mem_filterMap]
  constructor
  · rintro ⟨m, hm, hf⟩
    by_cases hc : modelKey pid m.id == ""
    · rw [if_pos hc] at hf; cases hf
    · rw [if_neg hc] at hf
      exact ⟨m, hm, by simpa using hc, (Option.some.inj hf).symm⟩
  · rintro ⟨m, hm, hc, rfl⟩
    exact ⟨m, hm, by rw [if_neg (by simpa using hc)]⟩

theorem keysOfModels_nodup (pid : String) :
    ∀ ms : List ModelDescriptor, (modelIds ms).Nodup →
      (keysOfModels pid ms).Nodup := by
  intro ms
  induction ms with
  | nil => intro _; simp [keysOfModels]
  | cons m ms ih =>
    intro h
    rw [show modelIds (m :: ms) = m.id :: modelIds ms from rfl, List.nodup_cons] at h
    by_cases hc : modelKey pid m.id = ""
    · simpa [keysOfModels, List.filterMap_cons, hc] using ih h.2
    · have hstep : keysOfModels pid (m :: ms)
          = modelKey pid m.id :: keysOfModels pid ms := by
        simp [keysOfModels, List.filterMap_cons, hc]
      rw [hstep, List.nodup_cons]
      refine ⟨?_, ih h.2⟩
      intro hmem
      rcases mem_keysOfModels.mp hmem with ⟨m', hm', hne', heq⟩
      have : m'.id = m.id :=
        modelKey_inj_right pid m'.id m.id hne' hc heq.symm
      exact h.1 (mem_modelIds.mpr ⟨m', hm', this⟩)

theorem mem_itemsKeys :
    ∀ (ps : List ProviderDescriptor) (a : String),
      a ∈ itemsKeys ps ↔ ∃ p ∈ ps, a ∈ keysOfModels p.id p.models := by
  intro ps
  induction ps with
  | nil => intro a; simp [itemsKeys]
  | cons p ps ih =>
    intro a
    rw [itemsKeys, providerItems_ids, List.mem_append, ih]
    constructor
    · rintro (h | ⟨q, hq, hval⟩)
      · exact ⟨p, List.mem_cons_self p ps, h⟩
      · exact ⟨q, List.mem_cons_of_mem _ hq, hval⟩
    · rintro ⟨q, hq, hval⟩
      rcases List.mem_cons.mp hq with rfl | hq'
      · exact Or.inl hval
      · exact Or.inr ⟨q, hq', hval⟩

theorem itemsKeys_nodup :
    ∀ ps : List ProviderDescriptor, GoodProviders ps →
      (∀ p ∈ ps, (':' : Char) ∉ p.id.data) → (itemsKeys ps).Nodup := by
  intro ps
  induction ps with
  | nil => intro _ _; simp [itemsKeys]
  | cons p ps ih =>
    intro hg hsep
    obtain ⟨hids, hmodels⟩ := hg
    rw [show idsOf (p :: ps) = p.id :: idsOf ps from rfl, List.nodup_cons] at hids
    rw [itemsKeys, providerItems_ids, List.nodup_append]
    refine ⟨keysOfModels_nodup _ _ (hmodels p (List.mem_cons_self p ps)),
      ih ⟨hids.2, fun q hq => hmodels q (List.mem_cons_of_mem _ hq)⟩
        (fun q hq => hsep q (List.mem_cons_of_mem _ hq)), ?_⟩
    intro a ha hb
    rcases mem_keysOfModels.mp ha with ⟨m, _, hne, rfl⟩
    rcases (mem_itemsKeys ps _).mp hb with ⟨q, hq, hbq⟩
    rcases mem_keysOfModels.mp hbq with ⟨m', _, hne', heq⟩
    have hinj := modelKey_inj_sepFree p.id m.id q.id m'.id
      (hsep p (List.mem_cons_self p ps)) (hsep q (List.mem_cons_of_mem _ hq))
      hne hne' heq
    exact hids.1 (mem_idsOf.mpr ⟨q, hq, hinj.1.symm⟩)

theorem mem_providerItems {p : ProviderDescriptor} {it : DisplayItem} :
    it ∈ providerItems p
      ↔ ∃ m ∈ p.models, modelKey p.id m.id ≠ ""
          ∧ it = ⟨modelKey p.id m.id, false, ⟨p, m⟩⟩ := by
  rw [providerItems, List.mem_filterMap]
  constructor
  · rintro ⟨m, hm, hf⟩
    by_cases hc : modelKey p.id m.id == ""
    · rw [if_pos hc] at hf; cases hf
    · rw [if_neg hc] at hf
      exact ⟨m, hm, by simpa using hc, (Option.some.inj hf).symm⟩
  · rintro ⟨m, hm, hc, rfl⟩
    exact ⟨m, hm, by rw [if_neg (by simpa using hc)]⟩

theorem mem_buildRecentGroup {ps : List ProviderDescriptor}
    {v : List RecentEntry} {it : DisplayItem} :
    it ∈ buildRecentGroup ps v
      ↔ ∃ e ∈ v, ∃ p m,
          modelKey e.provider e.model ≠ ""
          ∧ ps.find? (fun q => q.id == e.provider) = some p
          ∧ p.models.find? (fun m' => m'.id == e.model) = some m
          ∧ it = ⟨"recent::" ++ modelKey e.provider e.model, true, ⟨p, m⟩⟩ := by
  rw [buildRecentGroup, List.mem_filterMap]
  constructor
  · rintro ⟨e, he, hf⟩
    by_cases hc : modelKey e.provider e.model == ""
    · rw [if_pos hc] at hf; cases hf
    · rw [if_neg hc] at hf
      split at hf
      · cases hf
      · rename_i p hfind
        split at hf
        · cases hf
        · rename_i m hfind2
          exact ⟨e, he, p, m, by simpa using hc, hfind, hfind2,
            (Option.some.inj hf).symm⟩
  · rintro ⟨e, he, p, m, hc, hfind, hfind2, rfl⟩
    refine ⟨e, he, ?_⟩
    rw [if_neg (by simpa using hc), hfind]
    show (match p.models.find? (fun m' => m'.id == e.model) with
      | none => none
      | some m => some (⟨"recent::" ++ modelKey e.provider e.model, true,
          ⟨p, m⟩⟩ : DisplayItem)) = _
    rw [hfind2]

theorem buildRecentGroup_all_tagged {ps : List ProviderDescriptor}
    {v : List RecentEntry} {it : DisplayItem} (h : it ∈ buildRecentGroup ps v) :
    it.recent = true := by
  rcases mem_buildRecentGroup.mp h with ⟨e, _, p, m, _, _, _, rfl⟩
  rfl

theorem providerItems_all_untagged {p : ProviderDescriptor} {it : DisplayItem}
    (h : it ∈ providerItems p) : it.recent = false := by
  rcases mem_providerItems.mp h with ⟨m, _, _, rfl⟩
  rfl

theorem groupsItems_append (a b : List DisplayGroup) :
    groupsItems (a ++ b) = groupsItems a ++ groupsItems b := by
  induction a with
  | nil => simp [groupsItems]
  | cons g a ih => simp [groupsItems, ih]

theorem nonRecentIds_map_providerGroup :
    ∀ ps : List ProviderDescriptor,
      ((groupsItems (ps.map providerGroup)).filter fun it => !it.recent).map
        DisplayItem.id = itemsKeys ps := by
  intro ps
  induction ps with
  | nil => simp [groupsItems, itemsKeys]
  | cons p ps ih =>
    rw [List.map_cons,
      show groupsItems (providerGroup p :: ps.map providerGroup)
        = (providerGroup p).items ++ groupsItems (ps.map providerGroup) from rfl,
      List.filter_append, List.map_append, ih]
    have hfix : ((providerGroup p).items.filter fun it => !it.recent)
        = providerItems p := by
      apply List.filter_eq_self.mpr
      intro it hit
      simp [providerItems_all_untagged hit]
    rw [hfix, itemsKeys, providerItems_ids]

theorem filter_nonRecent_buildRecentGroup (ps : List ProviderDescriptor)
    (v : List RecentEntry) :
    ((buildRecentGroup ps v).filter fun it => !it.recent) = [] := by
  apply List.filter_eq_nil_iff.mpr
  intro it hit
  simp [buildRecentGroup_all_tagged hit]

theorem nonRecentIds_buildGroups (cat conf : List ProviderDescriptor)
    (v : List RecentEntry) :
    nonRecentIds (buildGroups cat conf v)
      = itemsKeys (mergeProviderLists cat conf) := by
  rw [nonRecentIds, buildGroups]
  by_cases hv : (buildRecentGroup (mergeProviderLists cat conf) v).isEmpty
  · simp only [hv, if_pos]
    rw [List.nil_append]
    exact nonRecentIds_map_providerGroup _
  · simp only [hv, if_neg, Bool.false_eq_true, not_false_eq_true]
    rw [groupsItems_append,
      show groupsItems [⟨recentGroupLabel, buildRecentGroup (mergeProviderLists cat conf) v⟩]
        = buildRecentGroup (mergeProviderLists cat conf) v ++ [] from rfl,
      List.append_nil, List.filter_append, filter_nonRecent_buildRecentGroup,
      List.nil_append]
    exact nonRecentIds_map_providerGroup _

/-- `C2`: in the builder's merged output, the identity keys of the
entries without the recent tag are pairwise distinct across all provider
groups and all sections, no matter how many overlapping source provider
lists describe the same provider/model pair (provider IDs are
separator-free, as real provider IDs are). -/
theorem builder_non_recent_keys_pairwise_distinct
    (cat conf : List ProviderDescriptor) (v : List RecentEntry)
    (h1 : SeparatorFreeIds cat) (h2 : SeparatorFreeIds conf) :
    (nonRecentIds (buildGroups cat conf v)).Nodup := by
  rw [nonRecentIds_buildGroups]
  apply itemsKeys_nodup _ (mergeProviderLists_good cat conf)
  intro p hp
  rcases mergeProviderLists_ids_sub cat conf p.id (mem_idsOf.mpr ⟨p, hp, rfl⟩) with h | h
  · rcases mem_idsOf.mp h with ⟨q, hq, hqid⟩
    exact hqid ▸ h1 q hq
  · rcases mem_idsOf.mp h with ⟨q, hq, hqid⟩
    exact hqid ▸ h2 q hq

theorem addProvider_nil (p : ProviderDescriptor) :
    addProvider [] p = [{ p with models := dedupModels p.models }] := rfl

/-- `C4`: two source provider lists claiming the same provider ID merge
into a single logical provider group whose model-ID set is the union of
the two sources' model-ID sets, each model ID appearing exactly once. -/
theorem merge_same_id_unions_model_sets (P Q : ProviderDescriptor)
    (h : Q.id = P.id) :
    ∃ R, mergeProviderLists [P] [Q] = [R]
      ∧ R.id = P.id
      ∧ (modelIds R.models).Nodup
      ∧ ∀ a, a ∈ modelIds R.models
          ↔ a ∈ modelIds P.models ∨ a ∈ modelIds Q.models := by
  have hcond : ([{ P with models := dedupModels P.models }].any
      fun q => q.id == Q.id) = true := by
    simp [h]
  have e3 : mergeProviderLists [P] [Q]
      = [{ P with models := unionModels (dedupModels P.models) Q.models }] := by
    show addProvider (addProvider [] P) Q = _
    rw [addProvider_nil, addProvider, if_pos hcond]
    simp [h]
  refine ⟨{ P with models := unionModels (dedupModels P.models) Q.models },
    e3, rfl, ?_, ?_⟩
  · exact unionModels_nodup Q.models (dedupModels P.models) (dedupModels_nodup P.models)
  · intro a
    rw [show ({ P with models := unionModels (dedupModels P.models) Q.models }
          : ProviderDescriptor).models
        = unionModels (dedupModels P.models) Q.models from rfl,
      mem_unionModels_ids, mem_dedupModels_ids]

/-- `C9`: every item of the recent group carries the `recent::` identity
prefix in front of its pair's key, and its provider/model pair also
appears, untagged and exactly once, in that provider's group of the
built display. -/
theorem recent_items_prefixed_and_present_once_in_provider_group
    (cat conf : List ProviderDescriptor) (v : List RecentEntry)
    (it : DisplayItem)
    (h : it ∈ buildRecentGroup (mergeProviderLists cat conf) v) :
    it.recent = true
    ∧ it.id = "recent::" ++ modelKey it.option.provider.id it.option.model.id
    ∧ providerGroup it.option.provider ∈ buildGroups cat conf v
    ∧ (∀ jt ∈ (providerGroup it.option.provider).items, jt.recent = false)
    ∧ ((providerGroup it.option.provider).items.map DisplayItem.id).count
        (modelKey it.option.provider.id it.option.model.id) = 1 := by
  rcases mem_buildRecentGroup.mp h with ⟨e, _, p, m, hne, hfind, hfind2, rfl⟩
  have hpid : p.id = e.provider := by simpa using List.find?_some hfind
  have hmid : m.id = e.model := by simpa using List.find?_some hfind2
  have hp : p ∈ mergeProviderLists cat conf := List.mem_of_find?_eq_some hfind
  have hm : m ∈ p.models := List.mem_of_find?_eq_some hfind2
  have hkey : modelKey p.id m.id = modelKey e.provider e.model := by
    rw [hpid, hmid]
  have hkne : modelKey p.id m.id ≠ "" := by rw [hkey]; exact hne
  refine ⟨rfl, ?_, ?_, ?_, ?_⟩
  · show "recent::" ++ modelKey e.provider e.model = "recent::" ++ modelKey p.id m.id
    rw [hkey]
  · rw [buildGroups]
    refine List.mem_append.mpr (Or.inr ?_)
    exact List.mem_map.mpr ⟨p, hp, rfl⟩
  · intro jt hjt
    exact providerItems_all_untagged hjt
  · show ((providerItems p).map DisplayItem.id).count (modelKey p.id m.id) = 1
    rw [providerItems_ids]
    have hnodup : (keysOfModels p.id p.models).Nodup :=
      keysOfModels_nodup p.id p.models ((mergeProviderLists_good cat conf).2 p hp)
    have hmem : modelKey p.id m.id ∈ keysOfModels p.id p.models :=
      mem_keysOfModels.mpr ⟨m, hm, hkne, rfl⟩
    exact List.count_eq_one_of_mem hnodup hmem

theorem append_ne_empty_left (s t : String) (h : s ≠ "") : s ++ t ≠ "" := by
  intro he
  apply h
  have hd := congrArg String.data he
  rw [String.data_append, show String.data "" = [] from rfl] at hd
  have hs : s.data = [] := (List.append_eq_nil.mp hd).1
  exact String.ext (by rw [hs])

theorem mem_buildGroups {cat conf : List ProviderDescriptor}
    {v : List RecentEntry} {g : DisplayGroup} (h : g ∈ buildGroups cat conf v) :
    g = ⟨recentGroupLabel, buildRecentGroup (mergeProviderLists cat conf) v⟩
    ∨ ∃ p ∈ mergeProviderLists cat conf, g = providerGroup p := by
  rw [buildGroups] at h
  rcases List.mem_append.mp h with h' | h'
  · by_cases hv : (buildRecentGroup (mergeProviderLists cat conf) v).isEmpty
    · rw [if_pos hv] at h'; cases h'
    · rw [if_neg hv] at h'
      exact Or.inl (by simpa using h')
  · rcases List.mem_map.mp h' with ⟨p, hp, rfl⟩
    exact Or.inr ⟨p, hp, rfl⟩

/-- `C5`: the identity-key function returns the empty-string sentinel
when either argument is empty, returns `providerID:modelID` when both
are non-empty, and no option with an empty key is ever surfaced to the
display layer. -/
theorem modelKey_sentinel_and_no_empty_key_surfaced
    (p m : String) (cat conf : List ProviderDescriptor) (v : List RecentEntry)
    (hp : p ≠ "") (hm : m ≠ "") :
    modelKey "" m = "" ∧ modelKey p "" = "" ∧ modelKey "" "" = ""
    ∧ modelKey p m = p ++ ":" ++ m
    ∧ ∀ g ∈ buildGroups cat conf v, ∀ it ∈ g.items,
        it.id ≠ "" ∧ modelKey it.option.provider.id it.option.model.id ≠ "" := by
  refine ⟨modelKey_empty_left m, modelKey_empty_right p, modelKey_empty_left "",
    modelKey_of_ne p m hp hm, ?_⟩
  intro g hg it hit
  rcases mem_buildGroups hg with rfl | ⟨q, _, rfl⟩
  · rcases mem_buildRecentGroup.mp hit with ⟨e, _, p', m', hne, hfind, hfind2, rfl⟩
    have hpid : p'.id = e.provider := by simpa using List.find?_some hfind
    have hmid : m'.id = e.model := by simpa using List.find?_some hfind2
    constructor
    · exact append_ne_empty_left "recent::" _ (by decide)
    · show modelKey p'.id m'.id ≠ ""
      rw [hpid, hmid]
      exact hne
  · rcases mem_providerItems.mp hit with ⟨m', _, hne, rfl⟩
    exact ⟨hne, hne⟩

theorem getKey_setKey_self :
    ∀ (f : List (String × JsonVal)) (k : String) (v : JsonVal),
      getKey (setKey f k v) k = some v := by
  intro f k v
  induction f with
  | nil => simp [setKey, getKey]
  | cons kv rest ih =>
    obtain ⟨k', v'⟩ := kv
    by_cases h : k' = k
    · simp [setKey, h, getKey]
    · rw [setKey, if_neg (by simpa using h), getKey,
        List.find?_cons_of_neg _ (by simpa using h)]
      exact ih

theorem getKey_setKey_ne :
    ∀ (f : List (String × JsonVal)) (k : String) (v : JsonVal) (k' : String),
      k' ≠ k → getKey (setKey f k v) k' = getKey f k' := by
  intro f k v
  induction f with
  | nil =>
    intro k' h
    rw [setKey, getKey, getKey,
      List.find?_cons_of_neg _ (by simpa using fun he => h he.symm)]
  | cons kv rest ih =>
    obtain ⟨k'', v''⟩ := kv
    intro k' h
    by_cases h2 : k'' = k
    · rw [setKey, if_pos (by simpa using h2), getKey, getKey,
        List.find?_cons_of_neg _ (by simpa using fun he => h he.symm),
        List.find?_cons_of_neg _ (by simp [h2]; exact fun he => h he.symm)]
    · rw [setKey, if_neg (by simpa using h2)]
      by_cases h3 : k'' = k'
      · rw [getKey, getKey, List.find?_cons_of_pos _ (by simpa using h3),
          List.find?_cons_of_pos _ (by simpa using h3)]
      · rw [getKey, getKey, List.find?_cons_of_neg _ (by simpa using h3),
          List.find?_cons_of_neg _ (by simpa using h3)]
        exact ih k' h

theorem setKey_setKey :
    ∀ (f : List (String × JsonVal)) (k : String) (v v' : JsonVal),
      setKey (setKey f k v) k v' = setKey f k v' := by
  intro f k v v'
  induction f with
  | nil => simp [setKey]
  | cons kv rest ih =>
    obtain ⟨k'', v''⟩ := kv
    by_cases h : k'' = k
    · simp [setKey, h]
    · rw [setKey, if_neg (by simpa using h), setKey, if_neg (by simpa using h),
        setKey, if_neg (by simpa using h), ih]

theorem reconcileDoc_obj_eq (fields : List (String × JsonVal)) (c : String)
    (r : List RecentEntry) :
    reconcileDoc (.obj fields) c r
      = match getKey fields "recent_models" with
        | some (.obj rmFields) =>
          .ok (.obj (setKey fields "recent_models"
            (.obj (setKey rmFields c (.arr (r.map recentEntryToJson))))))
        | some _ => .error .malformedSnapshot
        | none =>
          .ok (.obj (setKey fields "recent_models"
            (.obj [(c, .arr (r.map recentEntryToJson))]))) := rfl

theorem reconcileDoc_obj (fields rm0 : List (String × JsonVal)) (c : String)
    (r : List RecentEntry)
    (hrm : getKey fields "recent_models" = some (.obj rm0)) :
    reconcileDoc (.obj fields) c r
      = .ok (.obj (setKey fields "recent_models"
          (.obj (setKey rm0 c (.arr (r.map recentEntryToJson)))))) := by
  rw [reconcileDoc_obj_eq, hrm]

theorem reconcileDoc_obj_none (fields : List (String × JsonVal)) (c : String)
    (r : List RecentEntry)
    (hrm : getKey fields "recent_models" = none) :
    reconcileDoc (.obj fields) c r
      = .ok (.obj (setKey fields "recent_models"
          (.obj [(c, .arr (r.map recentEntryToJson))]))) := by
  rw [reconcileDoc_obj_eq, hrm]

/-- `C3`: a reconciliation pass leaves the source document bit-for-bit
unmodified and writes, to the separate derived location, a value-level
copy of the source in which only `recent_models[sizeClass]` is replaced
by the validated list — every other top-level key and every other size
class passes through unchanged. -/
theorem reconcile_pass_is_frame_respecting_copy
    (st : Store) (c : String) (r : List RecentEntry)
    (fields rm0 : List (String × JsonVal))
    (hsrc : st.sourceDoc = .obj fields)
    (hrm : getKey fields "recent_models" = some (.obj rm0)) :
    (runReconcilePass st c r).1.sourceDoc = st.sourceDoc
    ∧ (runReconcilePass st c r).1.sourceDoc.render = st.sourceDoc.render
    ∧ (runReconcilePass st c r).2 = none
    ∧ ∃ dfields, (runReconcilePass st c r).1.derivedDoc = some (.obj dfields)
      ∧ (∀ k, k ≠ "recent_models" → getKey dfields k = getKey fields k)
      ∧ ∃ rmf, getKey dfields "recent_models" = some (.obj rmf)
        ∧ getKey rmf c = some (.arr (r.map recentEntryToJson))
        ∧ ∀ c', c' ≠ c → getKey rmf c' = getKey rm0 c' := by
  have hrun : runReconcilePass st c r
      = ({ st with derivedDoc := some (.obj (setKey fields "recent_models"
          (.obj (setKey rm0 c (.arr (r.map recentEntryToJson)))))) }, none) := by
    unfold runReconcilePass
    rw [hsrc, reconcileDoc_obj fields rm0 c r hrm]
  rw [hrun]
  refine ⟨rfl, rfl, rfl,
    setKey fields "recent_models"
      (.obj (setKey rm0 c (.arr (r.map recentEntryToJson)))), rfl,
    fun k hk => getKey_setKey_ne fields "recent_models" _ k hk,
    setKey rm0 c (.arr (r.map recentEntryToJson)),
    getKey_setKey_self fields "recent_models" _,
    getKey_setKey_self rm0 c _,
    fun c' hc' => getKey_setKey_ne rm0 c _ c' hc'⟩

/-- `C6`: reconciliation is idempotent — the derived document is a fixed
point of the merge under the same validated recents, and running the
pass twice persists byte-identical derived documents both times. -/
theorem reconcile_rewrite_idempotent (s d : JsonVal) (c : String)
    (r : List RecentEntry) (h : reconcileDoc s c r = Except.ok d) :
    reconcileDoc d c r = Except.ok d
    ∧ (runReconcilePass ⟨s, none⟩ c r).1.derivedDoc = some d
    ∧ (runReconcilePass (runReconcilePass ⟨s, none⟩ c r).1 c r).1.derivedDoc
        = some d
    ∧ (runReconcilePass ⟨s, none⟩ c r).1.derivedDoc.map JsonVal.render
        = (runReconcilePass (runReconcilePass ⟨s, none⟩ c r).1 c
            r).1.derivedDoc.map JsonVal.render := by
  have hfix : reconcileDoc d c r = Except.ok d := by
    cases s with
    | str a => exact Except.noConfusion h
    | num a => exact Except.noConfusion h
    | bool a => exact Except.noConfusion h
    | null => exact Except.noConfusion h
    | arr a => exact Except.noConfusion h
    | obj fields =>
      cases hget : getKey fields "recent_models" with
      | none =>
        rw [reconcileDoc_obj_none fields c r hget] at h
        have hd := Except.ok.inj h
        subst hd
        rw [reconcileDoc_obj _ [(c, .arr (r.map recentEntryToJson))] c r
          (getKey_setKey_self fields "recent_models" _)]
        rw [show setKey [(c, JsonVal.arr (r.map recentEntryToJson))] c
              (JsonVal.arr (r.map recentEntryToJson))
            = [(c, JsonVal.arr (r.map recentEntryToJson))] from by simp [setKey]]
        rw [setKey_setKey]
      | some v =>
        cases v with
        | obj rm0 =>
          rw [reconcileDoc_obj fields rm0 c r hget] at h
          have hd := Except.ok.inj h
          subst hd
          rw [reconcileDoc_obj _ (setKey rm0 c (.arr (r.map recentEntryToJson)))
            c r (getKey_setKey_self fields "recent_models" _)]
          rw [setKey_setKey, setKey_setKey]
        | str a =>
          rw [reconcileDoc_obj_eq, hget] at h
          exact Except.noConfusion h
        | num a =>
          rw [reconcileDoc_obj_eq, hget] at h
          exact Except.noConfusion h
        | bool a =>
          rw [reconcileDoc_obj_eq, hget] at h
          exact Except.noConfusion h
        | null =>
          rw [reconcileDoc_obj_eq, hget] at h
          exact Except.noConfusion h
        | arr a =>
          rw [reconcileDoc_obj_eq, hget] at h
          exact Except.noConfusion h
  have hpass1 : runReconcilePass ⟨s, none⟩ c r = (⟨s, some d⟩, none) := by
    unfold runReconcilePass
    rw [show (Store.mk s none).sourceDoc = s from rfl, h]
  have hpass2 : runReconcilePass ⟨s, some d⟩ c r = (⟨s, some d⟩, none) := by
    unfold runReconcilePass
    rw [show (Store.mk s (some d)).sourceDoc = s from rfl, h]
  refine ⟨hfix, by rw [hpass1], ?_, ?_⟩
  · rw [hpass1,
      show ((Store.mk s (some d), (none : Option ReconcileError))).1
        = Store.mk s (some d) from rfl, hpass2]
  · rw [hpass1,
      show ((Store.mk s (some d), (none : Option ReconcileError))).1
        = Store.mk s (some d) from rfl, hpass2]

theorem reconcileDoc_error_of_malformed (src : JsonVal) (c : String)
    (r : List RecentEntry) (h : relevantKeysWellFormed src = false) :
    reconcileDoc src c r = .error .malformedSnapshot := by
  cases src with
  | str a => rfl
  | num a => rfl
  | bool a => rfl
  | null => rfl
  | arr a => rfl
  | obj fields =>
    have heq : relevantKeysWellFormed (.obj fields)
        = match getKey fields "recent_models" with
          | some (.obj _) => true
          | some _ => false
          | none => true := rfl
    rw [heq] at h
    rw [reconcileDoc_obj_eq]
    cases hget : getKey fields "recent_models" with
    | none =>
      rw [hget] at h
      exact Bool.noConfusion h
    | some v =>
      rw [hget] at h
      cases v with
      | obj rm => exact Bool.noConfusion h
      | str a => rfl
      | num a => rfl
      | bool a => rfl
      | null => rfl
      | arr a => rfl

/-- `C8`: a structurally malformed source document fails the
reconciliation pass without writing any derived document, and every
failing pass leaves the previously persisted derived document intact. -/
theorem malformed_source_fails_pass_without_touching_derived
    (st : Store) (c : String) (r : List RecentEntry) :
    (relevantKeysWellFormed st.sourceDoc = false →
      runReconcilePass st c r = (st, some ReconcileError.malformedSnapshot))
    ∧ ∀ st' e, runReconcilePass st c r = (st', some e) →
        st'.derivedDoc = st.derivedDoc ∧ st' = st := by
  constructor
  · intro hmal
    unfold runReconcilePass
    rw [reconcileDoc_error_of_malformed st.sourceDoc c r hmal]
  · intro st' e hrun
    unfold runReconcilePass at hrun
    cases hrc : reconcileDoc st.sourceDoc c r with
    | ok dv =>
      rw [hrc] at hrun
      exact Option.noConfusion (congrArg Prod.snd hrun)
    | error e' =>
      rw [hrc] at hrun
      have h1 : st = st' := congrArg Prod.fst hrun
      exact ⟨by rw [← h1], h1.symm⟩

/-- `C7`: when every recent entry fails to resolve, validation yields
the empty list, the derived document's recent key for the class is the
empty array, and the built display has no recent section; empty input
likewise yields empty output. -/
theorem all_invalid_recents_yield_empty_everywhere
    (cat conf : List ProviderDescriptor) (recents : List RecentEntry)
    (fields rm0 : List (String × JsonVal)) (c : String)
    (h : ∀ e ∈ recents, resolves cat e = false)
    (hrm : getKey fields "recent_models" = some (.obj rm0)) :
    validateRecents cat recents = []
    ∧ validateRecents cat [] = []
    ∧ (∃ dfields, reconcileDoc (.obj fields) c (validateRecents cat recents)
        = .ok (.obj dfields)
        ∧ ∃ rmf, getKey dfields "recent_models" = some (.obj rmf)
          ∧ getKey rmf c = some (.arr []))
    ∧ buildGroups cat conf (validateRecents cat recents)
        = (mergeProviderLists cat conf).map providerGroup := by
  have hempty : validateRecents cat recents = [] := by
    rw [validateRecents_eq_filter]
    exact List.filter_eq_nil_iff.mpr (fun e he => by simp [h e he])
  refine ⟨hempty, rfl, ?_, ?_⟩
  · rw [hempty]
    exact ⟨setKey fields "recent_models" (.obj (setKey rm0 c (.arr []))),
      reconcileDoc_obj fields rm0 c [] hrm,
      setKey rm0 c (.arr []),
      getKey_setKey_self fields "recent_models" _,
      getKey_setKey_self rm0 c _⟩
  · rw [hempty]
    rfl

/-- `C1`: the `RecencyValidator`'s output is exactly the subsequence of
the input consisting of the entries that resolve in the catalog — an
entry is in the output iff it is an input entry whose provider ID
matches a catalog provider and whose model ID matches a model of that
provider, relative order is preserved, and no entries are added. -/
theorem recency_validator_is_exact_resolving_subsequence
    (catalog : List ProviderDescriptor) (recents : List RecentEntry) :
    validateRecents catalog recents
        = recents.filter (fun e => resolves catalog e)
    ∧ (validateRecents catalog recents).Sublist recents
    ∧ ∀ e, e ∈ validateRecents catalog recents
        ↔ e ∈ recents ∧ resolves catalog e = true := by
  refine ⟨validateRecents_eq_filter catalog recents, ?_, ?_⟩
  · rw [validateRecents_eq_filter]
    exact List.filter_sublist recents
  · intro e
    rw [validateRecents_eq_filter]
    simp [List.mem_filter]

end Crush

/-- `C10`: the chat `DefaultKeyMap` binds each of its eight actions to a
non-empty set of raw key sequences, and the key sets are pairwise
disjoint: no raw key sequence is mapped to more than one action. -/
theorem chat_default_keymap_nonempty_and_disjoint :
    ((Chat.bindingsOf Chat.DefaultKeyMap).all fun b => !b.keys.isEmpty) = true
    ∧ List.Pairwise (fun a b : Chat.Binding => ∀ k ∈ a.keys, k ∉ b.keys)
        (Chat.bindingsOf Chat.DefaultKeyMap) := by
  constructor
  · decide
  · decide

namespace Crush

theorem builder_non_recent_keys_pairwise_distinct_witness :
    SeparatorFreeIds [sampleP1] ∧ SeparatorFreeIds [sampleP1B]
    ∧ (nonRecentIds (buildGroups [sampleP1] [sampleP1B]
        [⟨"p1", "m2"⟩])).Nodup :=
  ⟨by unfold SeparatorFreeIds; decide, by unfold SeparatorFreeIds; decide,
    builder_non_recent_keys_pairwise_distinct [sampleP1] [sampleP1B]
      [⟨"p1", "m2"⟩] (by unfold SeparatorFreeIds; decide)
      (by unfold SeparatorFreeIds; decide)⟩

theorem merge_same_id_unions_model_sets_witness :
    sampleP1B.id = sampleP1.id
    ∧ (mergeProviderLists [sampleP1] [sampleP1B]).map
        (fun q => (q.id, modelIds q.models)) = [("p1", ["m1", "m2", "m3"])]
    ∧ ∃ R, mergeProviderLists [sampleP1] [sampleP1B] = [R]
        ∧ R.id = sampleP1.id
        ∧ (modelIds R.models).Nodup
        ∧ ∀ a, a ∈ modelIds R.models
            ↔ a ∈ modelIds sampleP1.models ∨ a ∈ modelIds sampleP1B.models :=
  ⟨rfl, by decide, merge_same_id_unions_model_sets sampleP1 sampleP1B rfl⟩

theorem recent_items_prefixed_and_present_once_in_provider_group_witness :
    sampleRecentItem ∈ buildRecentGroup (mergeProviderLists [sampleP1] [])
      [⟨"p1", "m2"⟩]
    ∧ sampleRecentItem.recent = true
    ∧ sampleRecentItem.id = "recent::"
        ++ modelKey sampleRecentItem.option.provider.id
            sampleRecentItem.option.model.id
    ∧ providerGroup sampleRecentItem.option.provider
        ∈ buildGroups [sampleP1] [] [⟨"p1", "m2"⟩]
    ∧ (∀ jt ∈ (providerGroup sampleRecentItem.option.provider).items,
        jt.recent = false)
    ∧ ((providerGroup sampleRecentItem.option.provider).items.map
        DisplayItem.id).count
          (modelKey sampleRecentItem.option.provider.id
            sampleRecentItem.option.model.id) = 1 :=
  ⟨by decide,
    recent_items_prefixed_and_present_once_in_provider_group [sampleP1] []
      [⟨"p1", "m2"⟩] sampleRecentItem (by decide)⟩

theorem modelKey_sentinel_and_no_empty_key_surfaced_witness :
    ("p" : String) ≠ "" ∧ ("m" : String) ≠ ""
    ∧ (modelKey "" "m" = "" ∧ modelKey "p" "" = "" ∧ modelKey "" "" = ""
      ∧ modelKey "p" "m" = "p" ++ ":" ++ "m"
      ∧ ∀ g ∈ buildGroups [sampleP1] [] sampleRecents, ∀ it ∈ g.items,
          it.id ≠ "" ∧ modelKey it.option.provider.id it.option.model.id ≠ "") :=
  ⟨by decide, by decide,
    modelKey_sentinel_and_no_empty_key_surfaced "p" "m" [sampleP1] []
      sampleRecents (by decide) (by decide)⟩

theorem reconcile_pass_is_frame_respecting_copy_witness :
    sampleStore.sourceDoc = JsonVal.obj sampleFields
    ∧ getKey sampleFields "recent_models" = some (JsonVal.obj sampleRm)
    ∧ (runReconcilePass sampleStore "large" [⟨"p1", "m2"⟩]).1.sourceDoc
        = sampleStore.sourceDoc
    ∧ (runReconcilePass sampleStore "large" [⟨"p1", "m2"⟩]).2 = none :=
  ⟨rfl, rfl,
    (reconcile_pass_is_frame_respecting_copy sampleStore "large"
      [⟨"p1", "m2"⟩] sampleFields sampleRm rfl rfl).1,
    (reconcile_pass_is_frame_respecting_copy sampleStore "large"
      [⟨"p1", "m2"⟩] sampleFields sampleRm rfl rfl).2.2.1⟩

theorem reconcile_rewrite_idempotent_witness :
    reconcileDoc (JsonVal.obj sampleFields) "large" [⟨"p1", "m2"⟩]
      = Except.ok sampleDerived
    ∧ reconcileDoc sampleDerived "large" [⟨"p1", "m2"⟩]
      = Except.ok sampleDerived :=
  ⟨rfl,
    (reconcile_rewrite_idempotent (JsonVal.obj sampleFields) sampleDerived
      "large" [⟨"p1", "m2"⟩] rfl).1⟩

theorem malformed_source_fails_pass_without_touching_derived_witness :
    relevantKeysWellFormed badStore.sourceDoc = false
    ∧ runReconcilePass badStore "large" []
        = (badStore, some ReconcileError.malformedSnapshot) :=
  ⟨rfl,
    (malformed_source_fails_pass_without_touching_derived badStore "large"
      []).1 rfl⟩

theorem all_invalid_recents_yield_empty_everywhere_witness :
    (∀ e ∈ ([⟨"u1", "x"⟩, ⟨"u2", "y"⟩] : List RecentEntry),
      resolves [sampleP1] e = false)
    ∧ validateRecents [sampleP1] [⟨"u1", "x"⟩, ⟨"u2", "y"⟩] = []
    ∧ buildGroups [sampleP1] []
        (validateRecents [sampleP1] [⟨"u1", "x"⟩, ⟨"u2", "y"⟩])
      = (mergeProviderLists [sampleP1] []).map providerGroup :=
  ⟨by decide,
    (all_invalid_recents_yield_empty_everywhere [sampleP1] []
      [⟨"u1", "x"⟩, ⟨"u2", "y"⟩] sampleFields sampleRm "large" (by decide)
      rfl).1,
    (all_invalid_recents_yield_empty_everywhere [sampleP1] []
      [⟨"u1", "x"⟩, ⟨"u2", "y"⟩] sampleFields sampleRm "large" (by decide)
      rfl).2.2.2⟩

end Crush
